import Mathlib

/-!
Shallow embedding of `src/mp4box/sidx.rs` (sidx segment-index box codec and
segment-geometry engine) together with theorems settling the specification
claims about it.

Conventions of the embedding:
* Rust machine integers (`u8`, `u16`, `u32`, `u64`) are modelled as `Nat`;
  wherever the source truncates (an `as` cast or a shift that drops high
  bits), the model applies an explicit `% 2 ^ w`.
* The byte stream is a `List Nat` of byte values; fallible reads return
  `Option` (the `?` operator of the source becomes `Option.bind`).
* Rust `f64` time arithmetic is modelled with exact rationals `ℚ`; the
  claims settled over time values only concern the accumulator structure of
  the traversal (or values that are exactly representable), so the rational
  model agrees with the double-precision one on every statement proved here.
* `u64` byte-offset arithmetic wraps modulo `2 ^ 64` (the two-complement
  wrapping semantics of release-mode Rust), written with explicit `% 2 ^ 64`.
-/

/-- One sub-reference of a sidx box (`struct SidxReference` in the source).
`reference_type` is `u8`, `referenced_size`, `subsegment_duration` and
`sap_delta_time` are `u32`, `sap_type` is `u8`, `starts_with_sap` is `bool`. -/
structure SidxReference where
  reference_type : Nat
  referenced_size : Nat
  subsegment_duration : Nat
  starts_with_sap : Bool
  sap_type : Nat
  sap_delta_time : Nat
deriving DecidableEq, Repr

/-- A decoded segment-index box (`struct SidxBox` in the source).
`version` is `u8`, `flags`, `reference_id`, `timescale` are `u32`,
`earliest_presentation_time` and `first_offset` are `u64`. -/
structure SidxBox where
  version : Nat
  flags : Nat
  reference_id : Nat
  timescale : Nat
  earliest_presentation_time : Nat
  first_offset : Nat
  references : List SidxReference
deriving DecidableEq, Repr

/-- Big-endian bytes of a 16-bit value (`write_u16::<BigEndian>`); byte
extraction truncates to the low 16 bits exactly as writing a `u16` does. -/
def be16 (x : Nat) : List Nat := [x / 2 ^ 8 % 256, x % 256]

/-- Big-endian bytes of a 32-bit value (`write_u32::<BigEndian>`). -/
def be32 (x : Nat) : List Nat :=
  [x / 2 ^ 24 % 256, x / 2 ^ 16 % 256, x / 2 ^ 8 % 256, x % 256]

/-- Big-endian bytes of a 64-bit value (`write_u64::<BigEndian>`). -/
def be64 (x : Nat) : List Nat :=
  [x / 2 ^ 56 % 256, x / 2 ^ 48 % 256, x / 2 ^ 40 % 256, x / 2 ^ 32 % 256,
   x / 2 ^ 24 % 256, x / 2 ^ 16 % 256, x / 2 ^ 8 % 256, x % 256]

/-- `read_u16::<BigEndian>`: consume two bytes, big-endian. -/
def readU16 : List Nat → Option (Nat × List Nat)
  | b0 :: b1 :: rest => some (b0 * 2 ^ 8 + b1, rest)
  | _ => none

/-- `read_u32::<BigEndian>`: consume four bytes, big-endian. -/
def readU32 : List Nat → Option (Nat × List Nat)
  | b0 :: b1 :: b2 :: b3 :: rest =>
    some (b0 * 2 ^ 24 + b1 * 2 ^ 16 + b2 * 2 ^ 8 + b3, rest)
  | _ => none

/-- `read_u64::<BigEndian>`: consume eight bytes, big-endian. -/
def readU64 : List Nat → Option (Nat × List Nat)
  | b0 :: b1 :: b2 :: b3 :: b4 :: b5 :: b6 :: b7 :: rest =>
    some (b0 * 2 ^ 56 + b1 * 2 ^ 48 + b2 * 2 ^ 40 + b3 * 2 ^ 32 +
          b4 * 2 ^ 24 + b5 * 2 ^ 16 + b6 * 2 ^ 8 + b7, rest)
  | _ => none

/-- Modelled from the spec: `read_box_header_ext` lives in `mp4box/mod.rs`,
which is not part of the provided sources.  Per the spec (§4.2 step 1 and the
§6 wire table) it reads one big-endian 32-bit word whose top byte is the
version and whose low 24 bits are the flags. -/
def read_box_header_ext (data : List Nat) : Option ((Nat × Nat) × List Nat) :=
  match readU32 data with
  | some (w, rest) => some ((w >>> 24, w &&& 0xFFFFFF), rest)
  | none => none

/-- Modelled from the spec: `write_box_header_ext` (in `mp4box/mod.rs`, not
part of the provided sources) writes the version byte and 24-bit flags as one
big-endian 32-bit word, version in the top byte. -/
def write_box_header_ext (version flags : Nat) : List Nat :=
  be32 (((version <<< 24) % 2 ^ 32) ||| flags)

/-- Modelled from the spec: the generic box header (`BoxHeader::write` in
`mp4box/mod.rs`, not part of the provided sources) is the
"header-size-constant" region of §4.1/§6 — a big-endian 32-bit size followed
by the 4-byte type tag, here always "sidx". -/
def boxHeaderBytes (size : Nat) : List Nat :=
  be32 size ++ [0x73, 0x69, 0x64, 0x78]

/-- Modelled from the spec: `HEADER_SIZE` (generic box header, 4-byte size +
4-byte type per the §6 wire table) from `mp4box/mod.rs`. -/
def HEADER_SIZE : Nat := 8

/-- Modelled from the spec: `HEADER_EXT_SIZE` (1 version byte + 3 flag bytes
per the §6 wire table) from `mp4box/mod.rs`. -/
def HEADER_EXT_SIZE : Nat := 4

/-- `SidxBox::box_size` (source lines 32–42): declared encoded size. -/
def SidxBox.box_size (b : SidxBox) : Nat :=
  HEADER_SIZE + HEADER_EXT_SIZE + 12 + (if b.version = 0 then 8 else 16) + 4 +
    b.references.length * 12

/-- The reference-reading loop of `SidxBox::read_box` (source lines 90–110),
reading `reference_count` three-word entries and unpacking the bit fields. -/
def read_references : Nat → List Nat → Option (List SidxReference × List Nat)
  | 0, data => some ([], data)
  | n + 1, data => do
    let (first_byte, data) ← readU32 data
    let reference_type := (first_byte >>> 31) &&& 0x01
    let referenced_size := first_byte &&& 0x7FFFFFFF
    let (subsegment_duration, data) ← readU32 data
    let (third_dword, data) ← readU32 data
    let starts_with_sap := ((third_dword >>> 31) &&& 0x01) == 1
    let sap_type := (third_dword >>> 28) &&& 0x07
    let sap_delta_time := third_dword &&& 0x0FFFFFFF
    let (rest, data) ← read_references n data
    some ({ reference_type := reference_type, referenced_size := referenced_size,
            subsegment_duration := subsegment_duration,
            starts_with_sap := starts_with_sap, sap_type := sap_type,
            sap_delta_time := sap_delta_time } :: rest, data)

/-- `SidxBox::read_box` (source lines 63–122).  The cursor starts at the box
payload, after the generic box header; the declared `size` parameter is
unused by the source, as here.  Returns the decoded box and the unconsumed
remainder of the stream. -/
def read_box (data : List Nat) (_size : Nat) : Option (SidxBox × List Nat) := do
  let ((version, flags), data) ← read_box_header_ext data
  let (reference_id, data) ← readU32 data
  let (timescale, data) ← readU32 data
  let ((earliest_presentation_time, first_offset), data) ←
    if version = 0 then do
      let (e, d) ← readU32 data
      let (f, d) ← readU32 d
      some ((e, f), d)
    else do
      let (e, d) ← readU64 data
      let (f, d) ← readU64 d
      some ((e, f), d)
  let (_reserved, data) ← readU16 data
  let (reference_count, data) ← readU16 data
  let (references, data) ← read_references reference_count data
  some ({ version := version, flags := flags, reference_id := reference_id,
          timescale := timescale,
          earliest_presentation_time := earliest_presentation_time,
          first_offset := first_offset, references := references }, data)

/-- The `sap_bits` packing of `SidxBox::write_box` (source lines 151–155):
when `starts_with_sap` the SAP flag bit, the shifted `sap_type` and
`sap_delta_time` are OR-combined; otherwise the word is just
`sap_delta_time`.  The `% 2 ^ 32` marks the `u32` shift that drops high
bits of `sap_type as u32` shifted by 28. -/
def sap_bits (reference : SidxReference) : Nat :=
  if reference.starts_with_sap then
    (0x80000000 ||| ((reference.sap_type <<< 28) % 2 ^ 32)) |||
      reference.sap_delta_time
  else
    reference.sap_delta_time

/-- The per-reference body of the write loop of `SidxBox::write_box`
(source lines 145–157): three big-endian 32-bit words. -/
def write_reference (reference : SidxReference) : List Nat :=
  be32 (((reference.reference_type <<< 31) % 2 ^ 32) ||| reference.referenced_size)
    ++ be32 reference.subsegment_duration
    ++ be32 (sap_bits reference)

/-- The payload part of `SidxBox::write_box` (source lines 129–157):
everything after the generic box header.  `as u32` and `as u16` casts of the
source appear as explicit `% 2 ^ 32` / `% 2 ^ 16`. -/
def write_box_payload (b : SidxBox) : List Nat :=
  write_box_header_ext b.version b.flags
    ++ be32 b.reference_id
    ++ be32 b.timescale
    ++ (if b.version = 0 then
          be32 (b.earliest_presentation_time % 2 ^ 32) ++ be32 (b.first_offset % 2 ^ 32)
        else
          be64 b.earliest_presentation_time ++ be64 b.first_offset)
    ++ be16 0
    ++ be16 (b.references.length % 2 ^ 16)
    ++ b.references.flatMap write_reference

/-- `SidxBox::write_box` (source lines 125–160): generic box header carrying
`box_size()`, then the payload.  The source returns `Ok(size)` and writes the
bytes to the sink; the model returns the bytes written. -/
def write_box (b : SidxBox) : List Nat :=
  boxHeaderBytes b.box_size ++ write_box_payload b

/-- `struct SeekSegment` (source lines 191–197). -/
structure SeekSegment where
  time_seconds : ℚ
  duration_seconds : ℚ
  byte_offset : Nat
  byte_size : Nat
deriving DecidableEq, Repr

/-- `struct DashSegment` (source lines 199–206). -/
structure DashSegment where
  start_time_seconds : ℚ
  duration_seconds : ℚ
  byte_range_start : Nat
  byte_range_end : Nat
  contains_sap : Bool
  sap_type : Nat
deriving DecidableEq, Repr

/-- The reference loop of `sidx_to_seek_segments` (source lines 173–186),
with the running time and byte-offset accumulators made explicit. -/
def seekLoop (timescale : ℚ) (references : List SidxReference)
    (current_time : ℚ) (current_offset : Nat) : List SeekSegment :=
  match references with
  | [] => []
  | reference :: rest =>
    let duration_seconds : ℚ := (reference.subsegment_duration : ℚ) / timescale
    { time_seconds := current_time, duration_seconds := duration_seconds,
      byte_offset := current_offset, byte_size := reference.referenced_size } ::
      seekLoop timescale rest (current_time + duration_seconds)
        ((current_offset + reference.referenced_size) % 2 ^ 64)

/-- `sidx_to_seek_segments` (source lines 163–189). -/
def sidx_to_seek_segments (sidx : SidxBox)
    (sidx_box_offset sidx_box_size : Nat) : List SeekSegment :=
  seekLoop (sidx.timescale : ℚ) sidx.references
    ((sidx.earliest_presentation_time : ℚ) / (sidx.timescale : ℚ))
    ((sidx_box_offset + sidx_box_size + sidx.first_offset) % 2 ^ 64)

/-- The reference loop of `parse_dash_sidx` (source lines 222–237); the
inclusive end byte `current_offset + referenced_size - 1` is `u64`
arithmetic, so the `- 1` is wrapping subtraction, written `+ (2 ^ 64 - 1)`
modulo `2 ^ 64`. -/
def dashLoop (timescale : ℚ) (references : List SidxReference)
    (current_time : ℚ) (current_offset : Nat) : List DashSegment :=
  match references with
  | [] => []
  | reference :: rest =>
    let duration_seconds : ℚ := (reference.subsegment_duration : ℚ) / timescale
    { start_time_seconds := current_time, duration_seconds := duration_seconds,
      byte_range_start := current_offset,
      byte_range_end :=
        (current_offset + reference.referenced_size + (2 ^ 64 - 1)) % 2 ^ 64,
      contains_sap := reference.starts_with_sap,
      sap_type := reference.sap_type } ::
      dashLoop timescale rest (current_time + duration_seconds)
        ((current_offset + reference.referenced_size) % 2 ^ 64)

/-- `parse_dash_sidx` (source lines 208–240). -/
def parse_dash_sidx (sidx : SidxBox)
    (sidx_box_offset sidx_box_size : Nat) : List DashSegment :=
  dashLoop (sidx.timescale : ℚ) sidx.references
    ((sidx.earliest_presentation_time : ℚ) / (sidx.timescale : ℚ))
    ((sidx_box_offset + sidx_box_size + sidx.first_offset) % 2 ^ 64)

/-- `find_segment_for_time` (source lines 243–248): first segment whose
half-open interval contains the queried time. -/
def find_segment_for_time (segments : List DashSegment)
    (time_seconds : ℚ) : Option DashSegment :=
  segments.find? fun segment =>
    decide (segment.start_time_seconds ≤ time_seconds ∧
      time_seconds < segment.start_time_seconds + segment.duration_seconds)

/-! ## Bridge lemmas: bitwise operations as arithmetic -/

theorem lor_two_pow_mul_add (k a b : Nat) (hb : b < 2 ^ k) :
    (2 ^ k * a) ||| b = 2 ^ k * a + b := by
  induction k generalizing a b with
  | zero =>
    have hb0 : b = 0 := by omega
    subst hb0
    simp
  | succ k ih =>
    rw [← Nat.bit_decomp b]
    have h1 : 2 ^ (k + 1) * a = Nat.bit false (2 ^ k * a) := by
      rw [Nat.bit_val, pow_succ]
      simp only [Bool.toNat_false, Nat.add_zero]
      ring
    rw [h1, Nat.lor_bit]
    have hb2 : Nat.div2 b < 2 ^ k := by
      rw [Nat.div2_val]
      have h2 : 2 ^ (k + 1) = 2 ^ k * 2 := pow_succ 2 k
      omega
    rw [Bool.false_or, ih a (Nat.div2 b) hb2]
    simp only [Nat.bit_val, Bool.toNat_false]
    ring

theorem and_mask31 (x : Nat) : x &&& 0x7FFFFFFF = x % 2 ^ 31 :=
  Nat.and_pow_two_sub_one_eq_mod x 31

theorem and_mask28 (x : Nat) : x &&& 0x0FFFFFFF = x % 2 ^ 28 :=
  Nat.and_pow_two_sub_one_eq_mod x 28

theorem and_mask24 (x : Nat) : x &&& 0xFFFFFF = x % 2 ^ 24 :=
  Nat.and_pow_two_sub_one_eq_mod x 24

theorem and_mask3 (x : Nat) : x &&& 0x07 = x % 2 ^ 3 :=
  Nat.and_pow_two_sub_one_eq_mod x 3

theorem and_mask1 (x : Nat) : x &&& 0x01 = x % 2 :=
  Nat.and_one_is_mod x

/-! ## Reader lemmas -/

theorem readU16_be16 (x : Nat) (rest : List Nat) (hx : x < 2 ^ 16) :
    readU16 (be16 x ++ rest) = some (x, rest) := by
  simp only [be16, List.cons_append, List.nil_append, readU16, Option.some.injEq,
    Prod.mk.injEq, and_true]
  omega

theorem readU32_be32 (x : Nat) (rest : List Nat) (hx : x < 2 ^ 32) :
    readU32 (be32 x ++ rest) = some (x, rest) := by
  simp only [be32, List.cons_append, List.nil_append, readU32, Option.some.injEq,
    Prod.mk.injEq, and_true]
  omega

theorem readU64_be64 (x : Nat) (rest : List Nat) (hx : x < 2 ^ 64) :
    readU64 (be64 x ++ rest) = some (x, rest) := by
  simp only [be64, List.cons_append, List.nil_append, readU64, Option.some.injEq,
    Prod.mk.injEq, and_true]
  omega

/-! ## Invariants

`ClaimedInvariants` is the invariant set exactly as the round-trip claim
states it (§3 of the spec: reference count fits 16 bits, `sap_type ≤ 7`,
`referenced_size` fits 31 bits, `sap_delta_time` fits 28 bits).

`GoodRef`/`GoodBox` is the strengthened invariant set actually needed for
the round-trip to hold on the code: additionally the native width bounds of
each Rust field type, `version ∈ {0, 1}`, 24-bit `flags`, 32-bit
`earliest_presentation_time`/`first_offset` when `version = 0`,
`reference_type ≤ 1`, and `sap_type = 0` whenever `starts_with_sap` is
false (the encoder drops `sap_type` for such references). -/

def ClaimedInvariants (b : SidxBox) : Prop :=
  b.references.length < 2 ^ 16 ∧
    ∀ r ∈ b.references,
      r.sap_type ≤ 7 ∧ r.referenced_size < 2 ^ 31 ∧ r.sap_delta_time < 2 ^ 28

instance : DecidablePred ClaimedInvariants := fun b => by
  unfold ClaimedInvariants
  infer_instance

def GoodRef (r : SidxReference) : Prop :=
  r.reference_type ≤ 1 ∧ r.referenced_size < 2 ^ 31 ∧
    r.subsegment_duration < 2 ^ 32 ∧ r.sap_type ≤ 7 ∧
    r.sap_delta_time < 2 ^ 28 ∧ (r.starts_with_sap = false → r.sap_type = 0)

instance : DecidablePred GoodRef := fun r => by
  unfold GoodRef
  infer_instance

def GoodBox (b : SidxBox) : Prop :=
  (b.version = 0 ∨ b.version = 1) ∧ b.flags < 2 ^ 24 ∧
    b.reference_id < 2 ^ 32 ∧ b.timescale < 2 ^ 32 ∧
    (b.version = 0 → b.earliest_presentation_time < 2 ^ 32 ∧ b.first_offset < 2 ^ 32) ∧
    b.earliest_presentation_time < 2 ^ 64 ∧ b.first_offset < 2 ^ 64 ∧
    b.references.length < 2 ^ 16 ∧ ∀ r ∈ b.references, GoodRef r

instance : DecidablePred GoodBox := fun b => by
  unfold GoodBox
  infer_instance

/-! ## Packed-word evaluation and extraction -/

theorem word1_eval (rt size : Nat) (h1 : rt ≤ 1) (h2 : size < 2 ^ 31) :
    ((rt <<< 31) % 2 ^ 32) ||| size = rt * 2 ^ 31 + size := by
  rcases Nat.le_one_iff_eq_zero_or_eq_one.mp h1 with h | h <;> subst h
  · rw [Nat.shiftLeft_eq]
    simp
  · rw [Nat.shiftLeft_eq]
    have h3 := lor_two_pow_mul_add 31 1 size h2
    norm_num at h3 ⊢
    exact h3

theorem word3_true_eval (st delta : Nat) (h1 : st ≤ 7) (h2 : delta < 2 ^ 28) :
    (0x80000000 ||| ((st <<< 28) % 2 ^ 32)) ||| delta =
      2 ^ 31 + st * 2 ^ 28 + delta := by
  rw [Nat.shiftLeft_eq]
  have hmod : st * 2 ^ 28 % 2 ^ 32 = st * 2 ^ 28 := Nat.mod_eq_of_lt (by omega)
  rw [hmod]
  have hin : 0x80000000 ||| st * 2 ^ 28 = 2 ^ 31 + st * 2 ^ 28 := by
    have h3 := lor_two_pow_mul_add 31 1 (st * 2 ^ 28) (by omega)
    norm_num at h3 ⊢
    exact h3
  rw [hin]
  have hsum : 2 ^ 31 + st * 2 ^ 28 = 2 ^ 28 * (8 + st) := by ring
  rw [hsum, lor_two_pow_mul_add 28 (8 + st) delta h2]

theorem extract_rt (rt size : Nat) (h1 : rt ≤ 1) (h2 : size < 2 ^ 31) :
    ((rt * 2 ^ 31 + size) >>> 31) &&& 0x01 = rt := by
  rw [Nat.shiftRight_eq_div_pow, and_mask1]
  omega

theorem extract_size (rt size : Nat) (h2 : size < 2 ^ 31) :
    (rt * 2 ^ 31 + size) &&& 0x7FFFFFFF = size := by
  rw [and_mask31]
  omega

theorem extract_flag_true (st delta : Nat) (h1 : st ≤ 7) (h2 : delta < 2 ^ 28) :
    ((2 ^ 31 + st * 2 ^ 28 + delta) >>> 31) &&& 0x01 = 1 := by
  rw [Nat.shiftRight_eq_div_pow, and_mask1]
  omega

theorem extract_saptype_true (st delta : Nat) (h1 : st ≤ 7) (h2 : delta < 2 ^ 28) :
    ((2 ^ 31 + st * 2 ^ 28 + delta) >>> 28) &&& 0x07 = st := by
  rw [Nat.shiftRight_eq_div_pow, and_mask3]
  omega

theorem extract_delta_true (st delta : Nat) (_h1 : st ≤ 7) (h2 : delta < 2 ^ 28) :
    (2 ^ 31 + st * 2 ^ 28 + delta) &&& 0x0FFFFFFF = delta := by
  rw [and_mask28]
  omega

theorem extract_flag_false (delta : Nat) (h2 : delta < 2 ^ 28) :
    (delta >>> 31) &&& 0x01 = 0 := by
  rw [Nat.shiftRight_eq_div_pow, and_mask1]
  omega

theorem extract_saptype_false (delta : Nat) (h2 : delta < 2 ^ 28) :
    (delta >>> 28) &&& 0x07 = 0 := by
  rw [Nat.shiftRight_eq_div_pow, and_mask3]
  omega

theorem extract_delta_false (delta : Nat) (h2 : delta < 2 ^ 28) :
    delta &&& 0x0FFFFFFF = delta := by
  rw [and_mask28]
  omega

theorem read_references_succ (r : SidxReference) (n : Nat) (tail : List Nat)
    (hr : GoodRef r) :
    read_references (n + 1) (write_reference r ++ tail) =
      Option.map (fun p => (r :: p.1, p.2)) (read_references n tail) := by
  obtain ⟨rt, size, dur, sap, st, delta⟩ := r
  obtain ⟨hrt, hsize, hdur, hst, hdelta, hsap0⟩ := hr
  simp only at hrt hsize hdur hst hdelta hsap0
  have e1 : ∀ rest : List Nat,
      readU32 (be32 (((rt <<< 31) % 2 ^ 32) ||| size) ++ rest) =
        some (rt * 2 ^ 31 + size, rest) := by
    intro rest
    rw [word1_eval rt size hrt hsize]
    exact readU32_be32 _ rest (by omega)
  have e2 : ∀ rest : List Nat, readU32 (be32 dur ++ rest) = some (dur, rest) :=
    fun rest => readU32_be32 _ rest (by omega)
  cases sap with
  | false =>
    have hst0 : st = 0 := hsap0 rfl
    subst hst0
    have hsb : sap_bits ⟨rt, size, dur, false, 0, delta⟩ = delta := rfl
    have e3 : ∀ rest : List Nat,
        readU32 (be32 (sap_bits ⟨rt, size, dur, false, 0, delta⟩) ++ rest) =
          some (delta, rest) := by
      intro rest
      rw [hsb]
      exact readU32_be32 _ rest (by omega)
    simp only [write_reference, List.append_assoc, read_references, e1, e2, e3,
      Option.bind_eq_bind, Option.some_bind, extract_rt rt size hrt hsize,
      extract_size rt size hsize, extract_flag_false delta hdelta,
      extract_saptype_false delta hdelta, extract_delta_false delta hdelta]
    cases h : read_references n tail with
    | none => simp
    | some p => simp
  | true =>
    have hsb : sap_bits ⟨rt, size, dur, true, st, delta⟩ =
        (0x80000000 ||| ((st <<< 28) % 2 ^ 32)) ||| delta := rfl
    have e3 : ∀ rest : List Nat,
        readU32 (be32 (sap_bits ⟨rt, size, dur, true, st, delta⟩) ++ rest) =
          some (2 ^ 31 + st * 2 ^ 28 + delta, rest) := by
      intro rest
      rw [hsb, word3_true_eval st delta hst hdelta]
      exact readU32_be32 _ rest (by omega)
    simp only [write_reference, List.append_assoc, read_references, e1, e2, e3,
      Option.bind_eq_bind, Option.some_bind, extract_rt rt size hrt hsize,
      extract_size rt size hsize, extract_flag_true st delta hst hdelta,
      extract_saptype_true st delta hst hdelta, extract_delta_true st delta hst hdelta]
    cases h : read_references n tail with
    | none => simp
    | some p => simp

theorem read_references_write (refs : List SidxReference) (rest : List Nat)
    (h : ∀ r ∈ refs, GoodRef r) :
    read_references refs.length (refs.flatMap write_reference ++ rest) =
      some (refs, rest) := by
  induction refs with
  | nil => simp [read_references]
  | cons r rs ih =>
    have hr : GoodRef r := h r (List.mem_cons_self r rs)
    have hrs : ∀ x ∈ rs, GoodRef x := fun x hx => h x (List.mem_cons_of_mem r hx)
    simp only [List.length_cons, List.flatMap_cons, List.append_assoc]
    rw [read_references_succ r rs.length _ hr, ih hrs]
    rfl

theorem header_ext_roundtrip (ver fl : Nat) (hver : ver = 0 ∨ ver = 1)
    (hfl : fl < 2 ^ 24) (rest : List Nat) :
    read_box_header_ext (write_box_header_ext ver fl ++ rest) =
      some ((ver, fl), rest) := by
  have hw : ((ver <<< 24) % 2 ^ 32) ||| fl = ver * 2 ^ 24 + fl := by
    rcases hver with h | h <;> subst h
    · rw [Nat.shiftLeft_eq]
      simp
    · rw [Nat.shiftLeft_eq]
      have h3 := lor_two_pow_mul_add 24 1 fl hfl
      norm_num at h3 ⊢
      exact h3
  have e1 : (ver * 2 ^ 24 + fl) >>> 24 = ver := by
    rw [Nat.shiftRight_eq_div_pow]
    omega
  have e2 : (ver * 2 ^ 24 + fl) &&& 0xFFFFFF = fl := by
    rw [and_mask24]
    omega
  simp only [write_box_header_ext, read_box_header_ext, hw]
  rw [readU32_be32 _ rest (by omega)]
  simp only [e1, e2]

theorem read_box_write_payload (b : SidxBox) (hb : GoodBox b) (sz : Nat)
    (rest : List Nat) :
    read_box (write_box_payload b ++ rest) sz = some (b, rest) := by
  obtain ⟨ver, fl, rid, ts, ept, fo, refs⟩ := b
  obtain ⟨hver, hfl, hrid, hts, h0, hept, hfo, hlen, hrefs⟩ := hb
  simp only at hver hfl hrid hts h0 hept hfo hlen hrefs
  have hcnt : refs.length % 2 ^ 16 = refs.length := Nat.mod_eq_of_lt hlen
  have ehdr : ∀ r : List Nat,
      read_box_header_ext (write_box_header_ext ver fl ++ r) = some ((ver, fl), r) :=
    fun r => header_ext_roundtrip ver fl hver hfl r
  have erid : ∀ r : List Nat, readU32 (be32 rid ++ r) = some (rid, r) :=
    fun r => readU32_be32 _ r hrid
  have ets : ∀ r : List Nat, readU32 (be32 ts ++ r) = some (ts, r) :=
    fun r => readU32_be32 _ r hts
  have eres : ∀ r : List Nat, readU16 (be16 0 ++ r) = some (0, r) :=
    fun r => readU16_be16 _ r (by omega)
  have ecnt : ∀ r : List Nat,
      readU16 (be16 (refs.length % 2 ^ 16) ++ r) = some (refs.length, r) := by
    intro r
    rw [hcnt]
    exact readU16_be16 _ r hlen
  have erefs : ∀ r : List Nat,
      read_references refs.length (refs.flatMap write_reference ++ r) =
        some (refs, r) :=
    fun r => read_references_write refs r hrefs
  rcases hver with h | h <;> subst h
  · obtain ⟨hept32, hfo32⟩ := h0 rfl
    have eept : ∀ r : List Nat, readU32 (be32 (ept % 2 ^ 32) ++ r) = some (ept, r) := by
      intro r
      rw [Nat.mod_eq_of_lt hept32]
      exact readU32_be32 _ r hept32
    have efo : ∀ r : List Nat, readU32 (be32 (fo % 2 ^ 32) ++ r) = some (fo, r) := by
      intro r
      rw [Nat.mod_eq_of_lt hfo32]
      exact readU32_be32 _ r hfo32
    simp only [read_box, write_box_payload, List.append_assoc,
      if_pos (show (0 : Nat) = 0 from rfl), if_true, if_false, ehdr,
      erid, ets, eept, efo, eres, ecnt, erefs, Option.bind_eq_bind, Option.some_bind]
  · have eept : ∀ r : List Nat, readU64 (be64 ept ++ r) = some (ept, r) :=
      fun r => readU64_be64 _ r hept
    have efo : ∀ r : List Nat, readU64 (be64 fo ++ r) = some (fo, r) :=
      fun r => readU64_be64 _ r hfo
    simp only [read_box, write_box_payload, List.append_assoc,
      if_neg (show ¬(1 : Nat) = 0 by omega), if_true, if_false, ehdr,
      erid, ets, eept, efo, eres, ecnt, erefs, Option.bind_eq_bind, Option.some_bind]

/-! ## Inverse direction: reconstructing the byte stream from a parse -/

/-- The payload writer generalized over the reserved word: identical to
`write_box_payload` except that the 2-byte reserved field, which the source
hard-codes to 0 (line 142), carries an arbitrary value.  It is used to state
exactly which byte streams a decode–encode round trip reproduces:
`write_box_payload_reserved v 0 = write_box_payload v`. -/
def write_box_payload_reserved (b : SidxBox) (reserved : Nat) : List Nat :=
  write_box_header_ext b.version b.flags
    ++ be32 b.reference_id
    ++ be32 b.timescale
    ++ (if b.version = 0 then
          be32 (b.earliest_presentation_time % 2 ^ 32) ++ be32 (b.first_offset % 2 ^ 32)
        else
          be64 b.earliest_presentation_time ++ be64 b.first_offset)
    ++ be16 reserved
    ++ be16 (b.references.length % 2 ^ 16)
    ++ b.references.flatMap write_reference

theorem write_box_payload_reserved_zero (b : SidxBox) :
    write_box_payload_reserved b 0 = write_box_payload b := rfl

theorem readU16_inv (b : List Nat) (x : Nat) (rest : List Nat)
    (hb : ∀ y ∈ b, y < 256) (h : readU16 b = some (x, rest)) :
    b = be16 x ++ rest ∧ x < 2 ^ 16 := by
  rcases b with _ | ⟨b0, _ | ⟨b1, r⟩⟩
  · simp [readU16] at h
  · simp [readU16] at h
  · simp only [readU16, Option.some.injEq, Prod.mk.injEq] at h
    obtain ⟨hx, hr⟩ := h
    have h0 : b0 < 256 := hb b0 (by simp)
    have h1 : b1 < 256 := hb b1 (by simp)
    subst hx
    subst hr
    refine ⟨?_, by omega⟩
    simp only [be16, List.cons_append, List.nil_append, List.cons.injEq]
    refine ⟨by omega, by omega, trivial⟩

theorem readU32_inv (b : List Nat) (x : Nat) (rest : List Nat)
    (hb : ∀ y ∈ b, y < 256) (h : readU32 b = some (x, rest)) :
    b = be32 x ++ rest ∧ x < 2 ^ 32 := by
  rcases b with _ | ⟨b0, _ | ⟨b1, _ | ⟨b2, _ | ⟨b3, r⟩⟩⟩⟩
  · simp [readU32] at h
  · simp [readU32] at h
  · simp [readU32] at h
  · simp [readU32] at h
  · simp only [readU32, Option.some.injEq, Prod.mk.injEq] at h
    obtain ⟨hx, hr⟩ := h
    have h0 : b0 < 256 := hb b0 (by simp)
    have h1 : b1 < 256 := hb b1 (by simp)
    have h2 : b2 < 256 := hb b2 (by simp)
    have h3 : b3 < 256 := hb b3 (by simp)
    subst hx
    subst hr
    refine ⟨?_, by omega⟩
    simp only [be32, List.cons_append, List.nil_append, List.cons.injEq]
    refine ⟨by omega, by omega, by omega, by omega, trivial⟩

theorem readU64_inv (b : List Nat) (x : Nat) (rest : List Nat)
    (hb : ∀ y ∈ b, y < 256) (h : readU64 b = some (x, rest)) :
    b = be64 x ++ rest ∧ x < 2 ^ 64 := by
  rcases b with _ | ⟨b0, _ | ⟨b1, _ | ⟨b2, _ | ⟨b3, _ | ⟨b4, _ | ⟨b5, _ | ⟨b6, _ | ⟨b7, r⟩⟩⟩⟩⟩⟩⟩⟩
  · simp [readU64] at h
  · simp [readU64] at h
  · simp [readU64] at h
  · simp [readU64] at h
  · simp [readU64] at h
  · simp [readU64] at h
  · simp [readU64] at h
  · simp [readU64] at h
  · simp only [readU64, Option.some.injEq, Prod.mk.injEq] at h
    obtain ⟨hx, hr⟩ := h
    have h0 : b0 < 256 := hb b0 (by simp)
    have h1 : b1 < 256 := hb b1 (by simp)
    have h2 : b2 < 256 := hb b2 (by simp)
    have h3 : b3 < 256 := hb b3 (by simp)
    have h4 : b4 < 256 := hb b4 (by simp)
    have h5 : b5 < 256 := hb b5 (by simp)
    have h6 : b6 < 256 := hb b6 (by simp)
    have h7 : b7 < 256 := hb b7 (by simp)
    subst hx
    subst hr
    refine ⟨?_, by omega⟩
    simp only [be64, List.cons_append, List.nil_append, List.cons.injEq]
    refine ⟨by omega, by omega, by omega, by omega, by omega, by omega, by omega,
      by omega, trivial⟩

theorem word0_repack (w : Nat) (hw : w < 2 ^ 32) :
    (((w >>> 24) <<< 24) % 2 ^ 32) ||| (w &&& 0xFFFFFF) = w := by
  rw [Nat.shiftRight_eq_div_pow, and_mask24, Nat.shiftLeft_eq]
  have hm : (w / 2 ^ 24 * 2 ^ 24) % 2 ^ 32 = w / 2 ^ 24 * 2 ^ 24 :=
    Nat.mod_eq_of_lt (by omega)
  rw [hm, Nat.mul_comm (w / 2 ^ 24) (2 ^ 24),
    lor_two_pow_mul_add 24 (w / 2 ^ 24) (w % 2 ^ 24) (by omega)]
  omega

theorem word1_repack (w : Nat) (hw : w < 2 ^ 32) :
    ((((w >>> 31) &&& 0x01) <<< 31) % 2 ^ 32) ||| (w &&& 0x7FFFFFFF) = w := by
  rw [Nat.shiftRight_eq_div_pow, and_mask1, and_mask31, Nat.shiftLeft_eq]
  have ha : w / 2 ^ 31 % 2 = w / 2 ^ 31 := by omega
  rw [ha]
  have hm : (w / 2 ^ 31 * 2 ^ 31) % 2 ^ 32 = w / 2 ^ 31 * 2 ^ 31 :=
    Nat.mod_eq_of_lt (by omega)
  rw [hm, Nat.mul_comm (w / 2 ^ 31) (2 ^ 31),
    lor_two_pow_mul_add 31 (w / 2 ^ 31) (w % 2 ^ 31) (by omega)]
  omega

theorem word3_repack (x y z w : Nat) (hw : w < 2 ^ 32)
    (hcond : (w >>> 31) &&& 0x01 = 0 → (w >>> 28) &&& 0x07 = 0) :
    sap_bits { reference_type := x, referenced_size := y,
               subsegment_duration := z,
               starts_with_sap := ((w >>> 31) &&& 0x01) == 1,
               sap_type := (w >>> 28) &&& 0x07,
               sap_delta_time := w &&& 0x0FFFFFFF } = w := by
  rw [Nat.shiftRight_eq_div_pow, and_mask1] at hcond ⊢
  rw [Nat.shiftRight_eq_div_pow, and_mask3] at hcond ⊢
  rcases Nat.lt_or_ge w (2 ^ 31) with h | h
  · have h31 : w / 2 ^ 31 % 2 = 0 := by omega
    have hst : w / 2 ^ 28 % 2 ^ 3 = 0 := hcond h31
    have hsmall : w < 2 ^ 28 := by omega
    have hflag : ((w / 2 ^ 31 % 2 == 1) : Bool) = false := by
      rw [h31]
      rfl
    simp only [sap_bits, hflag, Bool.false_eq_true, if_false, and_mask28]
    omega
  · have h31 : w / 2 ^ 31 % 2 = 1 := by omega
    have hflag : ((w / 2 ^ 31 % 2 == 1) : Bool) = true := by
      rw [h31]
      rfl
    simp only [sap_bits, hflag, if_true, and_mask28]
    rw [word3_true_eval (w / 2 ^ 28 % 2 ^ 3) (w % 2 ^ 28) (by omega) (by omega)]
    omega

theorem read_box_header_ext_inv (b : List Nat) (ver fl : Nat) (rest : List Nat)
    (hb : ∀ y ∈ b, y < 256)
    (h : read_box_header_ext b = some ((ver, fl), rest)) :
    b = write_box_header_ext ver fl ++ rest ∧ ver < 256 ∧ fl < 2 ^ 24 := by
  unfold read_box_header_ext at h
  cases hru : readU32 b with
  | none =>
    rw [hru] at h
    simp at h
  | some q =>
    rw [hru] at h
    obtain ⟨w, r⟩ := q
    simp only [Option.some.injEq, Prod.mk.injEq] at h
    obtain ⟨⟨hver, hfl⟩, hrest⟩ := h
    obtain ⟨hbb, hwlt⟩ := readU32_inv b w r hb hru
    subst hver
    subst hfl
    subst hrest
    refine ⟨?_, ?_, ?_⟩
    · rw [hbb, write_box_header_ext, word0_repack w hwlt]
    · rw [Nat.shiftRight_eq_div_pow]
      omega
    · rw [and_mask24]
      omega

theorem read_references_length (n : Nat) (d : List Nat)
    (refs : List SidxReference) (rest : List Nat)
    (h : read_references n d = some (refs, rest)) : refs.length = n := by
  induction n generalizing d refs rest with
  | zero =>
    simp only [read_references, Option.some.injEq, Prod.mk.injEq] at h
    rw [← h.1]
    rfl
  | succ n ih =>
    simp only [read_references, Option.bind_eq_bind, Option.bind_eq_some] at h
    obtain ⟨⟨w1, d1⟩, hw1, h⟩ := h
    obtain ⟨⟨w2, d2⟩, hw2, h⟩ := h
    obtain ⟨⟨w3, d3⟩, hw3, h⟩ := h
    obtain ⟨⟨rs, d4⟩, hrs, h⟩ := h
    simp only [Option.some.injEq, Prod.mk.injEq] at h
    rw [← h.1, List.length_cons, ih d3 rs d4 hrs]

theorem read_references_inv (n : Nat) (d : List Nat)
    (refs : List SidxReference) (rest : List Nat)
    (hb : ∀ y ∈ d, y < 256)
    (h : read_references n d = some (refs, rest))
    (hsap : ∀ r ∈ refs, r.starts_with_sap = false → r.sap_type = 0) :
    d = refs.flatMap write_reference ++ rest := by
  induction n generalizing d refs with
  | zero =>
    simp only [read_references, Option.some.injEq, Prod.mk.injEq] at h
    obtain ⟨h1, h2⟩ := h
    subst h1
    subst h2
    simp
  | succ n ih =>
    simp only [read_references, Option.bind_eq_bind, Option.bind_eq_some] at h
    obtain ⟨⟨w1, d1⟩, hw1, h⟩ := h
    obtain ⟨⟨w2, d2⟩, hw2, h⟩ := h
    obtain ⟨⟨w3, d3⟩, hw3, h⟩ := h
    obtain ⟨⟨rs, d4⟩, hrs, h⟩ := h
    simp only [Option.some.injEq, Prod.mk.injEq] at h
    obtain ⟨h1, h2⟩ := h
    subst h1
    subst h2
    simp only at hw2 hw3 hrs
    obtain ⟨hd, hw1lt⟩ := readU32_inv d w1 d1 hb hw1
    have hb1 : ∀ y ∈ d1, y < 256 := by
      intro y hy
      apply hb
      rw [hd]
      exact List.mem_append_right _ hy
    obtain ⟨hd1, hw2lt⟩ := readU32_inv d1 w2 d2 hb1 hw2
    have hb2 : ∀ y ∈ d2, y < 256 := by
      intro y hy
      apply hb1
      rw [hd1]
      exact List.mem_append_right _ hy
    obtain ⟨hd2, hw3lt⟩ := readU32_inv d2 w3 d3 hb2 hw3
    have hb3 : ∀ y ∈ d3, y < 256 := by
      intro y hy
      apply hb2
      rw [hd2]
      exact List.mem_append_right _ hy
    have hsap2 : ∀ r ∈ rs, r.starts_with_sap = false → r.sap_type = 0 :=
      fun r hr => hsap r (List.mem_cons_of_mem _ hr)
    have hd3 := ih d3 rs hb3 hrs hsap2
    have hcond : (w3 >>> 31) &&& 0x01 = 0 → (w3 >>> 28) &&& 0x07 = 0 := by
      intro h0
      apply hsap _ (List.mem_cons_self _ _)
      show (((w3 >>> 31) &&& 0x01) == 1) = false
      rw [h0]
      rfl
    rw [hd, hd1, hd2, hd3]
    simp only [List.flatMap_cons, write_reference, List.append_assoc]
    rw [word1_repack w1 hw1lt, word3_repack _ _ _ w3 hw3lt hcond]
  
theorem read_box_payload_inv (b : List Nat) (sz : Nat) (v : SidxBox)
    (hb : ∀ y ∈ b, y < 256)
    (h : read_box b sz = some (v, []))
    (hsap : ∀ r ∈ v.references, r.starts_with_sap = false → r.sap_type = 0) :
    ∃ res, res < 2 ^ 16 ∧ b = write_box_payload_reserved v res := by
  simp only [read_box, Option.bind_eq_bind, Option.bind_eq_some] at h
  obtain ⟨⟨⟨ver, fl⟩, d0⟩, hhdr, h⟩ := h
  obtain ⟨⟨rid, d1⟩, hrid, h⟩ := h
  obtain ⟨⟨ts, d2⟩, hts, h⟩ := h
  simp only at hhdr hrid hts h
  obtain ⟨hb0, hverlt, hfllt⟩ := read_box_header_ext_inv b ver fl d0 hb hhdr
  have hbd0 : ∀ y ∈ d0, y < 256 := by
    intro y hy
    apply hb
    rw [hb0]
    exact List.mem_append_right _ hy
  obtain ⟨hd0, hridlt⟩ := readU32_inv d0 rid d1 hbd0 hrid
  have hbd1 : ∀ y ∈ d1, y < 256 := by
    intro y hy
    apply hbd0
    rw [hd0]
    exact List.mem_append_right _ hy
  obtain ⟨hd1, htslt⟩ := readU32_inv d1 ts d2 hbd1 hts
  have hbd2 : ∀ y ∈ d2, y < 256 := by
    intro y hy
    apply hbd1
    rw [hd1]
    exact List.mem_append_right _ hy
  by_cases hv0 : ver = 0
  · rw [if_pos hv0] at h
    simp only [Option.bind_eq_some, Option.some_bind] at h
    obtain ⟨⟨e1, dd⟩, he1, h⟩ := h
    obtain ⟨⟨f1, dd2⟩, hf1, h⟩ := h
    obtain ⟨⟨res, d4⟩, hres, h⟩ := h
    obtain ⟨⟨cnt, d5⟩, hcnt, h⟩ := h
    obtain ⟨⟨refs, d6⟩, hrefs, h⟩ := h
    simp only [Option.some.injEq, Prod.mk.injEq] at h
    obtain ⟨hv, hd6⟩ := h
    subst hd6
    subst hv
    simp only at he1 hf1 hres hcnt hrefs hsap
    obtain ⟨hd2, heptlt⟩ := readU32_inv d2 e1 dd hbd2 he1
    have hbdd : ∀ y ∈ dd, y < 256 := by
      intro y hy
      apply hbd2
      rw [hd2]
      exact List.mem_append_right _ hy
    obtain ⟨hdd2, hfolt⟩ := readU32_inv dd f1 dd2 hbdd hf1
    have hbd3 : ∀ y ∈ dd2, y < 256 := by
      intro y hy
      apply hbdd
      rw [hdd2]
      exact List.mem_append_right _ hy
    obtain ⟨hd3, hreslt⟩ := readU16_inv dd2 res d4 hbd3 hres
    have hbd4 : ∀ y ∈ d4, y < 256 := by
      intro y hy
      apply hbd3
      rw [hd3]
      exact List.mem_append_right _ hy
    obtain ⟨hd4, hcntlt⟩ := readU16_inv d4 cnt d5 hbd4 hcnt
    have hbd5 : ∀ y ∈ d5, y < 256 := by
      intro y hy
      apply hbd4
      rw [hd4]
      exact List.mem_append_right _ hy
    have hlen : refs.length = cnt := read_references_length cnt d5 refs [] hrefs
    have hd5 : d5 = refs.flatMap write_reference ++ [] :=
      read_references_inv cnt d5 refs [] hbd5 hrefs hsap
    refine ⟨res, hreslt, ?_⟩
    rw [hb0, hd0, hd1, hd2, hdd2, hd3, hd4, hd5]
    simp only [write_box_payload_reserved, if_pos hv0, List.append_assoc,
      List.append_nil]
    rw [Nat.mod_eq_of_lt heptlt, Nat.mod_eq_of_lt hfolt, hlen,
      Nat.mod_eq_of_lt hcntlt]
  · rw [if_neg hv0] at h
    simp only [Option.bind_eq_some, Option.some_bind] at h
    obtain ⟨⟨e1, dd⟩, he1, h⟩ := h
    obtain ⟨⟨f1, dd2⟩, hf1, h⟩ := h
    obtain ⟨⟨res, d4⟩, hres, h⟩ := h
    obtain ⟨⟨cnt, d5⟩, hcnt, h⟩ := h
    obtain ⟨⟨refs, d6⟩, hrefs, h⟩ := h
    simp only [Option.some.injEq, Prod.mk.injEq] at h
    obtain ⟨hv, hd6⟩ := h
    subst hd6
    subst hv
    simp only at he1 hf1 hres hcnt hrefs hsap
    obtain ⟨hd2, heptlt⟩ := readU64_inv d2 e1 dd hbd2 he1
    have hbdd : ∀ y ∈ dd, y < 256 := by
      intro y hy
      apply hbd2
      rw [hd2]
      exact List.mem_append_right _ hy
    obtain ⟨hdd2, hfolt⟩ := readU64_inv dd f1 dd2 hbdd hf1
    have hbd3 : ∀ y ∈ dd2, y < 256 := by
      intro y hy
      apply hbdd
      rw [hdd2]
      exact List.mem_append_right _ hy
    obtain ⟨hd3, hreslt⟩ := readU16_inv dd2 res d4 hbd3 hres
    have hbd4 : ∀ y ∈ d4, y < 256 := by
      intro y hy
      apply hbd3
      rw [hd3]
      exact List.mem_append_right _ hy
    obtain ⟨hd4, hcntlt⟩ := readU16_inv d4 cnt d5 hbd4 hcnt
    have hbd5 : ∀ y ∈ d5, y < 256 := by
      intro y hy
      apply hbd4
      rw [hd4]
      exact List.mem_append_right _ hy
    have hlen : refs.length = cnt := read_references_length cnt d5 refs [] hrefs
    have hd5 : d5 = refs.flatMap write_reference ++ [] :=
      read_references_inv cnt d5 refs [] hbd5 hrefs hsap
    refine ⟨res, hreslt, ?_⟩
    rw [hb0, hd0, hd1, hd2, hdd2, hd3, hd4, hd5]
    simp only [write_box_payload_reserved, if_neg hv0, List.append_assoc,
      List.append_nil]
    rw [hlen, Nat.mod_eq_of_lt hcntlt]

/-! ## C1: the round-trip contract -/

/-- The reference of the C1 counterexample: `starts_with_sap = false` but
`sap_type = 1`; it satisfies every invariant listed in §3 of the spec. -/
def c1aRef : SidxReference :=
  { reference_type := 0, referenced_size := 10, subsegment_duration := 5,
    starts_with_sap := false, sap_type := 1, sap_delta_time := 0 }

def c1aBox : SidxBox :=
  { version := 0, flags := 0, reference_id := 7, timescale := 1000,
    earliest_presentation_time := 0, first_offset := 0, references := [c1aRef] }

def c1aDecoded : SidxBox :=
  { c1aBox with references := [{ c1aRef with sap_type := 0 }] }

/-- A well-formed version-0 payload (24 bytes, fully consumed by `read_box`)
whose reserved field — bytes 20–21 — is the tolerated nonzero value 1:
ext header 0, reference_id 0, timescale 1, times 0, reserved 1, count 0. -/
def c1bBytes : List Nat :=
  [0, 0, 0, 0, 0, 0, 0, 0, 0, 0, 0, 1, 0, 0, 0, 0, 0, 0, 0, 0, 0, 1, 0, 0]

def c1bBox : SidxBox :=
  { version := 0, flags := 0, reference_id := 0, timescale := 1,
    earliest_presentation_time := 0, first_offset := 0, references := [] }

/-- A well-formed version-0 payload with one reference whose third word is
`0x10000000`: SAP flag clear but SAP-type bits nonzero, which `read_box`
tolerates and decodes to `sap_type = 1` with `starts_with_sap = false`. -/
def c1cBytes : List Nat :=
  [0, 0, 0, 0, 0, 0, 0, 0, 0, 0, 0, 1, 0, 0, 0, 0, 0, 0, 0, 0, 0, 0, 0, 1,
   0, 0, 0, 0, 0, 0, 0, 0, 16, 0, 0, 0]

def c1cBox : SidxBox :=
  { version := 0, flags := 0, reference_id := 0, timescale := 1,
    earliest_presentation_time := 0, first_offset := 0,
    references := [{ reference_type := 0, referenced_size := 0,
                     subsegment_duration := 0, starts_with_sap := false,
                     sap_type := 1, sap_delta_time := 0 }] }

/-- C1 (counterexample): both directions of the claimed round trip fail on
the code.  Value direction: `c1aBox` satisfies the §3 invariant set exactly
as the claim states it (reference count fits 16 bits, sap_type ≤ 7,
referenced_size fits 31 bits, sap_delta_time fits 28 bits), yet decoding its
encoded payload yields a box whose reference has `sap_type = 0`, not the
original `sap_type = 1` — `write_box` drops `sap_type` whenever
`starts_with_sap` is false.  Bytes direction: the well-formed inputs
`c1bBytes` (nonzero reserved field) and `c1cBytes` (SAP-type bits under a
clear SAP flag) decode successfully and completely, but re-encoding the
decoded box does not reproduce them — the encoder writes 0 in the reserved
slot and drops the orphan SAP-type bits. -/
theorem sidx_roundtrip_counterexample :
    (ClaimedInvariants c1aBox ∧
      read_box (write_box_payload c1aBox) c1aBox.box_size =
        some (c1aDecoded, []) ∧
      c1aDecoded ≠ c1aBox) ∧
    ((∀ y ∈ c1bBytes, y < 256) ∧
      read_box c1bBytes 24 = some (c1bBox, []) ∧
      write_box_payload c1bBox ≠ c1bBytes) ∧
    ((∀ y ∈ c1cBytes, y < 256) ∧
      read_box c1cBytes 36 = some (c1cBox, []) ∧
      write_box_payload c1cBox ≠ c1cBytes) := by decide

/-- C1 (amended): (value direction) decode∘encode is the identity on every
`SidxBox` satisfying the strengthened invariant set `GoodBox` (the §3
invariants plus: `version ∈ {0, 1}`, 24-bit `flags`, native width bounds of
every field, 32-bit `earliest_presentation_time`/`first_offset` when
`version = 0`, `reference_type ≤ 1`, and `sap_type = 0` whenever
`starts_with_sap` is false).  (Bytes direction) for every well-formed input
— a stream of bytes `< 256` that `read_box` decodes completely, say to `u` —
such that no reference of `u` carries SAP-type bits under a clear SAP flag,
the stream equals the re-encoding of `u` with some 16-bit value in the
reserved slot, and `write_box_payload u` reproduces the stream exactly when
that value, the reserved field of the input, is zero.  The three
counterexamples force exactly these side conditions. -/
theorem sidx_roundtrip_amended (v : SidxBox) (hv : GoodBox v) (sz : Nat) :
    read_box (write_box_payload v) sz = some (v, []) ∧
    ∀ (b : List Nat) (u : SidxBox),
      (∀ y ∈ b, y < 256) →
      read_box b sz = some (u, []) →
      (∀ r ∈ u.references, r.starts_with_sap = false → r.sap_type = 0) →
      ∃ res, res < 2 ^ 16 ∧ b = write_box_payload_reserved u res ∧
        (res = 0 ↔ write_box_payload u = b) := by
  constructor
  · have h := read_box_write_payload v hv sz []
    simpa using h
  · intro b u hbytes hread hsap2
    obtain ⟨res, hlt, hbe⟩ := read_box_payload_inv b sz u hbytes hread hsap2
    refine ⟨res, hlt, hbe, ?_, ?_⟩
    · intro h0
      subst h0
      rw [hbe, write_box_payload_reserved_zero]
    · intro heq
      have hzero : write_box_payload_reserved u 0 = write_box_payload_reserved u res := by
        rw [write_box_payload_reserved_zero, heq, hbe]
      unfold write_box_payload_reserved at hzero
      have h1 := List.append_cancel_right hzero
      have h2 := List.append_cancel_right h1
      have h3 := List.append_cancel_left h2
      simp only [be16, List.cons.injEq] at h3
      omega

/-- A `GoodBox` exercising version 1, both SAP states and the maximal
bit-field values, used to witness the amended round-trip. -/
def c1wBox : SidxBox :=
  { version := 1, flags := 5, reference_id := 9, timescale := 1000,
    earliest_presentation_time := 2 ^ 40, first_offset := 3,
    references :=
      [{ reference_type := 1, referenced_size := 2 ^ 31 - 1,
         subsegment_duration := 1234, starts_with_sap := true, sap_type := 7,
         sap_delta_time := 2 ^ 28 - 1 },
       { reference_type := 0, referenced_size := 2000,
         subsegment_duration := 2000, starts_with_sap := false, sap_type := 0,
         sap_delta_time := 0 }] }

/-- C1 (witness): the amended round trip at the concrete box `c1wBox`. -/
theorem sidx_roundtrip_amended_witness :
    GoodBox c1wBox ∧
    (read_box (write_box_payload c1wBox) 0 = some (c1wBox, []) ∧
      ∀ (b : List Nat) (u : SidxBox),
        (∀ y ∈ b, y < 256) →
        read_box b 0 = some (u, []) →
        (∀ r ∈ u.references, r.starts_with_sap = false → r.sap_type = 0) →
        ∃ res, res < 2 ^ 16 ∧ b = write_box_payload_reserved u res ∧
          (res = 0 ↔ write_box_payload u = b)) :=
  ⟨by decide, sidx_roundtrip_amended c1wBox (by decide) 0⟩

/-! ## C2: box_size versus bytes actually written -/

def c2Box0 : SidxBox :=
  { version := 0, flags := 0, reference_id := 0, timescale := 1000,
    earliest_presentation_time := 0, first_offset := 0, references := [] }

def c2Box1 : SidxBox :=
  { version := 1, flags := 0, reference_id := 0, timescale := 1000,
    earliest_presentation_time := 0, first_offset := 0,
    references := [{ reference_type := 0, referenced_size := 1,
                     subsegment_duration := 1, starts_with_sap := false,
                     sap_type := 0, sap_delta_time := 0 }] }

/-- C2: `box_size()` does NOT equal the byte count written by `write_box`:
it is 4 bytes larger for every box, because the `size += 12` step of
`box_size` already charges 4 bytes for the reserved/count pair that the
`size += 4` step then charges again.  At the failing inputs: a version-0 box
with no references declares 36 but writes 32 bytes; a version-1 box with one
reference declares 56 but writes 52. -/
theorem box_size_write_box_mismatch :
    (c2Box0.box_size = 36 ∧ (write_box c2Box0).length = 32) ∧
    (c2Box1.box_size = 56 ∧ (write_box c2Box1).length = 52) := by decide

/-! ## C3: zero timescale is not rejected -/

def c3aBox : SidxBox :=
  { version := 0, flags := 0, reference_id := 1, timescale := 0,
    earliest_presentation_time := 0, first_offset := 0, references := [] }

/-- C3 (counterexample): a payload whose timescale field decodes to 0 is
decoded successfully — `read_box` returns a `SidxBox` with `timescale = 0`
instead of failing with any decode error; no timescale check exists. -/
theorem read_box_zero_timescale_counterexample :
    read_box (write_box_payload c3aBox) c3aBox.box_size = some (c3aBox, []) ∧
    c3aBox.timescale = 0 := by decide

/-- C3 (amended): `read_box` performs no timescale validation: every
well-formed payload with a zero timescale field decodes successfully to a
box with `timescale = 0`. -/
theorem read_box_accepts_zero_timescale (v : SidxBox) (hv : GoodBox v)
    (hts : v.timescale = 0) (sz : Nat) :
    read_box (write_box_payload v) sz = some (v, []) ∧ v.timescale = 0 := by
  refine ⟨?_, hts⟩
  have h := read_box_write_payload v hv sz []
  simpa using h

def c3wBox : SidxBox :=
  { version := 1, flags := 0, reference_id := 2, timescale := 0,
    earliest_presentation_time := 10, first_offset := 20,
    references := [{ reference_type := 0, referenced_size := 50,
                     subsegment_duration := 60, starts_with_sap := true,
                     sap_type := 1, sap_delta_time := 2 }] }

/-- C3 (witness): the amended statement at the concrete zero-timescale box
`c3wBox`. -/
theorem read_box_accepts_zero_timescale_witness :
    (GoodBox c3wBox ∧ c3wBox.timescale = 0) ∧
    (read_box (write_box_payload c3wBox) 5 = some (c3wBox, []) ∧
      c3wBox.timescale = 0) :=
  ⟨⟨by decide, by decide⟩,
    read_box_accepts_zero_timescale c3wBox (by decide) (by decide) 5⟩

/-! ## C4: encode neither fails nor rejects out-of-budget fields -/

theorem write_reference_length (r : SidxReference) :
    (write_reference r).length = 12 := by
  simp [write_reference, be32]

theorem flatMap_write_reference_length (l : List SidxReference) :
    (l.flatMap write_reference).length = 12 * l.length := by
  induction l with
  | nil => simp
  | cons r rs ih =>
    simp [write_reference_length, ih]
    ring

def c4Ref : SidxReference :=
  { reference_type := 0, referenced_size := 1, subsegment_duration := 1,
    starts_with_sap := true, sap_type := 8, sap_delta_time := 0 }

/-- A box with 65536 references: one more than fits the 16-bit count field. -/
def c4BigBox : SidxBox :=
  { version := 0, flags := 0, reference_id := 0, timescale := 1,
    earliest_presentation_time := 0, first_offset := 0,
    references := List.replicate 65536 c4Ref }

/-- C4 (counterexample): encoding 65536 references does not fail — the model
of `write_box` is total because the source has no overflow check at all.
The 16-bit count field (bytes 30–31 of the output, after the 8-byte header
and 22 payload bytes) wraps to 0 via `len as u16`, while all 65536 reference
records are still written (the output is 32 + 12·65536 bytes long). -/
theorem c4_count_wrap (l : List SidxReference) (hl : l.length = 65536) :
    ((write_box ({ version := 0, flags := 0, reference_id := 0, timescale := 1,
                   earliest_presentation_time := 0, first_offset := 0,
                   references := l } : SidxBox)).take 32).drop 30 = [0, 0] ∧
    (write_box ({ version := 0, flags := 0, reference_id := 0, timescale := 1,
                  earliest_presentation_time := 0, first_offset := 0,
                  references := l } : SidxBox)).length = 32 + 12 * 65536 := by
  constructor
  · simp [write_box, boxHeaderBytes, write_box_payload, write_box_header_ext,
      be32, be16, SidxBox.box_size, HEADER_SIZE, HEADER_EXT_SIZE, hl]
  · simp [write_box, boxHeaderBytes, write_box_payload, write_box_header_ext,
      be32, be16, SidxBox.box_size, HEADER_SIZE, HEADER_EXT_SIZE, hl,
      flatMap_write_reference_length]
    have hmap : List.map (List.length ∘ write_reference) l =
        List.map (fun _ => 12) l := by
      simp [Function.comp_def, write_reference_length]
    have hsum : ∀ m : List SidxReference,
        (List.map (fun _ => (12 : Nat)) m).sum = 12 * m.length := by
      intro m
      induction m with
      | nil => simp
      | cons a as ih =>
        simp [ih]
        ring
    rw [hmap, hsum, hl]

/-- C4 (counterexample): encoding 65536 references does not fail — the model
of `write_box` is total because the source has no overflow check at all.
The 16-bit count field (bytes 30–31 of the output, after the 8-byte header
and 22 payload bytes) wraps to 0 via `len as u16`, while all 65536 reference
records are still written (the output is 32 + 12·65536 bytes long). -/
theorem write_box_overflow_counterexample :
    ((write_box c4BigBox).take 32).drop 30 = [0, 0] ∧
    (write_box c4BigBox).length = 32 + 12 * 65536 := by
  have h := c4_count_wrap (List.replicate 65536 c4Ref)
    (by rw [List.length_replicate])
  exact h

/-- A one-reference box probing how `write_box` handles an arbitrary `u8`
`sap_type` with the SAP flag set. -/
def sapProbeRef (st : Nat) : SidxReference :=
  { reference_type := 0, referenced_size := 1, subsegment_duration := 1,
    starts_with_sap := true, sap_type := st, sap_delta_time := 0 }

theorem sap_word_truncation (st : Nat) (_hst : st < 256) :
    (0x80000000 ||| ((st <<< 28) % 2 ^ 32)) ||| 0 = 2 ^ 31 + st % 8 * 2 ^ 28 := by
  have h1 : (st <<< 28) % 2 ^ 32 = st % 16 * 2 ^ 28 := by
    rw [Nat.shiftLeft_eq]
    omega
  rw [h1]
  have h0 : ∀ x : Nat, x ||| 0 = x := fun x => by
    rw [Nat.lor_comm]
    exact Nat.zero_or x
  rw [h0]
  rcases Nat.lt_or_ge (st % 16) 8 with h | h
  · have heq : st % 16 = st % 8 := by omega
    have hd := lor_two_pow_mul_add 31 1 (st % 16 * 2 ^ 28) (by omega)
    rw [← heq]
    norm_num at hd ⊢
    exact hd
  · have hsplit : st % 16 * 2 ^ 28 = 2 ^ 31 + st % 8 * 2 ^ 28 := by omega
    rw [hsplit]
    have hb : st % 8 * 2 ^ 28 < 2 ^ 31 := by omega
    have hd := lor_two_pow_mul_add 31 1 (st % 8 * 2 ^ 28) hb
    rw [show (2 : Nat) ^ 31 + st % 8 * 2 ^ 28 = 2 ^ 31 * 1 + st % 8 * 2 ^ 28 by ring,
      ← hd, ← Nat.lor_assoc]
    have hself : (0x80000000 : Nat) ||| 2 ^ 31 * 1 = 2 ^ 31 * 1 := by decide
    rw [hself]

theorem read_write_reference_sap_truncation (st : Nat) (hst : st < 256)
    (rest : List Nat) :
    read_references 1 (write_reference (sapProbeRef st) ++ rest) =
      some ([sapProbeRef (st % 8)], rest) := by
  have hw1 : (((0 : Nat) <<< 31) % 2 ^ 32) ||| 1 = 1 := by decide
  have e1 : ∀ r : List Nat,
      readU32 (be32 ((((0 : Nat) <<< 31) % 2 ^ 32) ||| 1) ++ r) = some (1, r) := by
    intro r
    rw [hw1]
    exact readU32_be32 1 r (by norm_num)
  have e2 : ∀ r : List Nat, readU32 (be32 1 ++ r) = some (1, r) :=
    fun r => readU32_be32 1 r (by norm_num)
  have hsb : sap_bits ⟨0, 1, 1, true, st, 0⟩ = 2 ^ 31 + st % 8 * 2 ^ 28 := by
    have h0 : sap_bits ⟨0, 1, 1, true, st, 0⟩ =
        (0x80000000 ||| ((st <<< 28) % 2 ^ 32)) ||| 0 := rfl
    rw [h0, sap_word_truncation st hst]
  have e3 : ∀ r : List Nat,
      readU32 (be32 (sap_bits ⟨0, 1, 1, true, st, 0⟩) ++ r) =
        some (2 ^ 31 + st % 8 * 2 ^ 28, r) := by
    intro r
    rw [hsb]
    exact readU32_be32 _ r (by omega)
  have hm8 : st % 8 ≤ 7 := by omega
  have hf : ((2 ^ 31 + st % 8 * 2 ^ 28) >>> 31) &&& 1 = 1 := by
    have h := extract_flag_true (st % 8) 0 hm8 (by norm_num)
    simpa using h
  have hsap : ((2 ^ 31 + st % 8 * 2 ^ 28) >>> 28) &&& 7 = st % 8 := by
    have h := extract_saptype_true (st % 8) 0 hm8 (by norm_num)
    simpa using h
  have hdel : (2 ^ 31 + st % 8 * 2 ^ 28) &&& 0x0FFFFFFF = 0 := by
    have h := extract_delta_true (st % 8) 0 hm8 (by norm_num)
    simpa using h
  have hrt : ((1 : Nat) >>> 31) &&& 1 = 0 := by decide
  have hsz : ((1 : Nat) &&& 0x7FFFFFFF) = 1 := by decide
  simp only [write_reference, sapProbeRef, List.append_assoc, read_references,
    e1, e2, e3, Option.bind_eq_bind, Option.some_bind, hrt, hsz, hf, hsap, hdel]
  simp [sapProbeRef]

/-- C4 (amended): `write_box` never fails and never rejects a value: there
is no overflow check of any kind.  The reference count is written modulo
2^16 (65536 references produce a count word of 0 while all 65536 records are
still written, see the byte facts on `c4BigBox`), and a `sap_type` larger
than 7 is silently truncated: for every `u8` value `st`, the packed third
word round-trips to `sap_type = st % 8` — the high bit of the shifted
`sap_type` merges into the SAP flag and nothing is reported. -/
theorem write_box_truncation (st : Nat) (hst : st < 256) (rest : List Nat) :
    read_references 1 (write_reference (sapProbeRef st) ++ rest) =
      some ([sapProbeRef (st % 8)], rest) ∧
    ((write_box c4BigBox).take 32).drop 30 = [0, 0] := by
  refine ⟨read_write_reference_sap_truncation st hst rest, ?_⟩
  exact (c4_count_wrap (List.replicate 65536 c4Ref) (by rw [List.length_replicate])).1

/-- C4 (witness): the amended truncation statement at `sap_type = 12`,
which is silently encoded as `12 % 8 = 4`. -/
theorem write_box_truncation_witness :
    12 < 256 ∧
    (read_references 1 (write_reference (sapProbeRef 12) ++ [9]) =
        some ([sapProbeRef (12 % 8)], [9]) ∧
      ((write_box c4BigBox).take 32).drop 30 = [0, 0]) :=
  ⟨by decide, write_box_truncation 12 (by decide) [9]⟩

/-! ## Geometry helper lemmas -/

theorem seekLoop_cons (ts : ℚ) (r : SidxReference) (rs : List SidxReference)
    (t : ℚ) (o : Nat) :
    seekLoop ts (r :: rs) t o =
      { time_seconds := t,
        duration_seconds := (r.subsegment_duration : ℚ) / ts,
        byte_offset := o, byte_size := r.referenced_size } ::
        seekLoop ts rs (t + (r.subsegment_duration : ℚ) / ts)
          ((o + r.referenced_size) % 2 ^ 64) := rfl

theorem dashLoop_cons (ts : ℚ) (r : SidxReference) (rs : List SidxReference)
    (t : ℚ) (o : Nat) :
    dashLoop ts (r :: rs) t o =
      { start_time_seconds := t,
        duration_seconds := (r.subsegment_duration : ℚ) / ts,
        byte_range_start := o,
        byte_range_end := (o + r.referenced_size + (2 ^ 64 - 1)) % 2 ^ 64,
        contains_sap := r.starts_with_sap, sap_type := r.sap_type } ::
        dashLoop ts rs (t + (r.subsegment_duration : ℚ) / ts)
          ((o + r.referenced_size) % 2 ^ 64) := rfl

theorem dashLoop_length (ts : ℚ) (refs : List SidxReference) (t : ℚ) (o : Nat) :
    (dashLoop ts refs t o).length = refs.length := by
  induction refs generalizing t o with
  | nil => rfl
  | cons r rs ih => simp [dashLoop_cons, ih]

theorem seekLoop_length (ts : ℚ) (refs : List SidxReference) (t : ℚ) (o : Nat) :
    (seekLoop ts refs t o).length = refs.length := by
  induction refs generalizing t o with
  | nil => rfl
  | cons r rs ih => simp [seekLoop_cons, ih]

theorem dashLoop_map_sap (ts : ℚ) (refs : List SidxReference) (t : ℚ) (o : Nat) :
    ((dashLoop ts refs t o).map fun s => (s.contains_sap, s.sap_type)) =
      refs.map fun r => (r.starts_with_sap, r.sap_type) := by
  induction refs generalizing t o with
  | nil => rfl
  | cons r rs ih => simp [dashLoop_cons, ih]

theorem dashLoop_adjacent (ts : ℚ) (refs : List SidxReference) (t : ℚ) (o : Nat)
    (i : Nat) (a b : DashSegment)
    (ha : (dashLoop ts refs t o)[i]? = some a)
    (hb : (dashLoop ts refs t o)[i + 1]? = some b) :
    b.start_time_seconds = a.start_time_seconds + a.duration_seconds ∧
    b.byte_range_start = (a.byte_range_end + 1) % 2 ^ 64 := by
  induction refs generalizing t o i with
  | nil => simp [dashLoop] at ha
  | cons r rs ih =>
    cases i with
    | zero =>
      rw [dashLoop_cons, List.getElem?_cons_zero] at ha
      rw [dashLoop_cons, List.getElem?_cons_succ] at hb
      cases rs with
      | nil => simp [dashLoop] at hb
      | cons r2 rs2 =>
        rw [dashLoop_cons, List.getElem?_cons_zero] at hb
        have ha2 := Option.some.inj ha
        have hb2 := Option.some.inj hb
        subst ha2
        subst hb2
        refine ⟨rfl, ?_⟩
        simp only
        omega
    | succ n =>
      rw [dashLoop_cons, List.getElem?_cons_succ] at ha hb
      exact ih _ _ _ ha hb

theorem seekLoop_dashLoop_agree (ts : ℚ) (refs : List SidxReference) (t : ℚ)
    (o : Nat) (i : Nat) (a : SeekSegment) (b : DashSegment)
    (ha : (seekLoop ts refs t o)[i]? = some a)
    (hb : (dashLoop ts refs t o)[i]? = some b) :
    a.time_seconds = b.start_time_seconds ∧
    a.duration_seconds = b.duration_seconds ∧
    a.byte_offset = b.byte_range_start ∧
    (a.byte_offset + a.byte_size + (2 ^ 64 - 1)) % 2 ^ 64 = b.byte_range_end := by
  induction refs generalizing t o i with
  | nil => simp [seekLoop] at ha
  | cons r rs ih =>
    cases i with
    | zero =>
      rw [seekLoop_cons, List.getElem?_cons_zero] at ha
      rw [dashLoop_cons, List.getElem?_cons_zero] at hb
      have ha2 := Option.some.inj ha
      have hb2 := Option.some.inj hb
      subst ha2
      subst hb2
      exact ⟨rfl, rfl, rfl, rfl⟩
    | succ n =>
      rw [seekLoop_cons, List.getElem?_cons_succ] at ha
      rw [dashLoop_cons, List.getElem?_cons_succ] at hb
      exact ih _ _ _ ha hb

/-! ## C5: contiguity of the derived segment sequence -/

/-- C5: for every SidxBox and every box offset/size, `parse_dash_sidx` emits
one segment per reference in reference order (same length, and the SAP
flag/type column equals the reference column), and every adjacent pair is
contiguous: segment i+1 starts exactly at the start of segment i plus its
duration, and its byte range starts exactly one past the inclusive end of
segment i (`+ 1`
taken in the wrapping u64 arithmetic of the source). -/
theorem parse_dash_sidx_contiguous (sidx : SidxBox) (off sz : Nat) (i : Nat)
    (a b : DashSegment)
    (ha : (parse_dash_sidx sidx off sz)[i]? = some a)
    (hb : (parse_dash_sidx sidx off sz)[i + 1]? = some b) :
    (parse_dash_sidx sidx off sz).length = sidx.references.length ∧
    ((parse_dash_sidx sidx off sz).map fun s => (s.contains_sap, s.sap_type)) =
      (sidx.references.map fun r => (r.starts_with_sap, r.sap_type)) ∧
    b.start_time_seconds = a.start_time_seconds + a.duration_seconds ∧
    b.byte_range_start = (a.byte_range_end + 1) % 2 ^ 64 := by
  refine ⟨dashLoop_length _ _ _ _, dashLoop_map_sap _ _ _ _, ?_, ?_⟩
  · exact (dashLoop_adjacent _ _ _ _ i a b ha hb).1
  · exact (dashLoop_adjacent _ _ _ _ i a b ha hb).2

def c5wBox : SidxBox :=
  { version := 0, flags := 0, reference_id := 0, timescale := 1,
    earliest_presentation_time := 0, first_offset := 0,
    references :=
      [{ reference_type := 0, referenced_size := 100, subsegment_duration := 2,
         starts_with_sap := true, sap_type := 1, sap_delta_time := 0 },
       { reference_type := 0, referenced_size := 50, subsegment_duration := 3,
         starts_with_sap := false, sap_type := 0, sap_delta_time := 0 }] }

def c5Seg0 : DashSegment :=
  { start_time_seconds := 0, duration_seconds := 2, byte_range_start := 30,
    byte_range_end := 129, contains_sap := true, sap_type := 1 }

def c5Seg1 : DashSegment :=
  { start_time_seconds := 2, duration_seconds := 3, byte_range_start := 130,
    byte_range_end := 179, contains_sap := false, sap_type := 0 }

/-- C5 (witness): contiguity at the concrete two-reference box `c5wBox`. -/
theorem parse_dash_sidx_contiguous_witness :
    ((parse_dash_sidx c5wBox 10 20)[0]? = some c5Seg0 ∧
      (parse_dash_sidx c5wBox 10 20)[1]? = some c5Seg1) ∧
    ((parse_dash_sidx c5wBox 10 20).length = c5wBox.references.length ∧
      ((parse_dash_sidx c5wBox 10 20).map fun s => (s.contains_sap, s.sap_type)) =
        (c5wBox.references.map fun r => (r.starts_with_sap, r.sap_type)) ∧
      c5Seg1.start_time_seconds = c5Seg0.start_time_seconds + c5Seg0.duration_seconds ∧
      c5Seg1.byte_range_start = (c5Seg0.byte_range_end + 1) % 2 ^ 64) := by
  have h0 : (parse_dash_sidx c5wBox 10 20)[0]? = some c5Seg0 := by
    simp [parse_dash_sidx, dashLoop_cons, c5wBox, c5Seg0]
  have h1 : (parse_dash_sidx c5wBox 10 20)[1]? = some c5Seg1 := by
    simp [parse_dash_sidx, dashLoop_cons, c5wBox, c5Seg1]
  exact ⟨⟨h0, h1⟩, parse_dash_sidx_contiguous c5wBox 10 20 0 c5Seg0 c5Seg1 h0 h1⟩

/-! ## C6: base offset and the concrete scenario -/

def c6Box : SidxBox :=
  { version := 0, flags := 0, reference_id := 1, timescale := 1000,
    earliest_presentation_time := 0, first_offset := 0,
    references := [{ reference_type := 0, referenced_size := 2000,
                     subsegment_duration := 2000, starts_with_sap := true,
                     sap_type := 1, sap_delta_time := 0 }] }

def c6Seg : DashSegment :=
  { start_time_seconds := 0, duration_seconds := 2, byte_range_start := 150,
    byte_range_end := 2149, contains_sap := true, sap_type := 1 }

/-- C6: segment derivation places the first segment at byte offset
`sidx_box_offset + sidx_box_size + first_offset` (u64 arithmetic), and the
concrete scenario of the spec holds: version 0, timescale 1000, one reference of
size 2000 and duration 2000 at box offset 100 / box size 50 derives exactly
one segment with start 0 s, duration 2 s and inclusive byte range
[150, 2149]. -/
theorem parse_dash_sidx_base_offset (s : SidxBox) (off sz : Nat)
    (h : s.references ≠ []) :
    ((parse_dash_sidx s off sz).head?.map fun seg => seg.byte_range_start) =
      some ((off + sz + s.first_offset) % 2 ^ 64) ∧
    parse_dash_sidx c6Box 100 50 = [c6Seg] := by
  constructor
  · cases hr : s.references with
    | nil => exact absurd hr h
    | cons r rs =>
      simp [parse_dash_sidx, hr, dashLoop_cons]
  · simp [parse_dash_sidx, dashLoop_cons, dashLoop, c6Box, c6Seg]
    norm_num

/-- C6 (witness): the base-offset formula at the concrete box `c6Box` with
box offset 100 and box size 50. -/
theorem parse_dash_sidx_base_offset_witness :
    c6Box.references ≠ [] ∧
    (((parse_dash_sidx c6Box 100 50).head?.map fun seg => seg.byte_range_start) =
        some ((100 + 50 + c6Box.first_offset) % 2 ^ 64) ∧
      parse_dash_sidx c6Box 100 50 = [c6Seg]) :=
  ⟨by simp [c6Box], parse_dash_sidx_base_offset c6Box 100 50 (by simp [c6Box])⟩

/-! ## C7: the two output shapes agree -/

/-- C7: `sidx_to_seek_segments` and `parse_dash_sidx` share one traversal:
for every box and offsets the outputs have the same length, and at every
index the segments agree — equal times, equal durations, `byte_offset`
equals `byte_range_start`, and `byte_offset + byte_size - 1` (wrapping u64
arithmetic) equals the inclusive `byte_range_end`. -/
theorem seek_and_dash_segments_agree (s : SidxBox) (off sz : Nat) (i : Nat)
    (a : SeekSegment) (b : DashSegment)
    (ha : (sidx_to_seek_segments s off sz)[i]? = some a)
    (hb : (parse_dash_sidx s off sz)[i]? = some b) :
    (sidx_to_seek_segments s off sz).length = (parse_dash_sidx s off sz).length ∧
    a.time_seconds = b.start_time_seconds ∧
    a.duration_seconds = b.duration_seconds ∧
    a.byte_offset = b.byte_range_start ∧
    (a.byte_offset + a.byte_size + (2 ^ 64 - 1)) % 2 ^ 64 = b.byte_range_end := by
  refine ⟨?_, seekLoop_dashLoop_agree _ _ _ _ i a b ha hb⟩
  simp only [sidx_to_seek_segments, parse_dash_sidx]
  rw [seekLoop_length, dashLoop_length]

def c7Seek0 : SeekSegment :=
  { time_seconds := 0, duration_seconds := 2, byte_offset := 30,
    byte_size := 100 }

/-- C7 (witness): shape agreement at index 0 of the concrete box `c5wBox`. -/
theorem seek_and_dash_segments_agree_witness :
    ((sidx_to_seek_segments c5wBox 10 20)[0]? = some c7Seek0 ∧
      (parse_dash_sidx c5wBox 10 20)[0]? = some c5Seg0) ∧
    ((sidx_to_seek_segments c5wBox 10 20).length =
        (parse_dash_sidx c5wBox 10 20).length ∧
      c7Seek0.time_seconds = c5Seg0.start_time_seconds ∧
      c7Seek0.duration_seconds = c5Seg0.duration_seconds ∧
      c7Seek0.byte_offset = c5Seg0.byte_range_start ∧
      (c7Seek0.byte_offset + c7Seek0.byte_size + (2 ^ 64 - 1)) % 2 ^ 64 =
        c5Seg0.byte_range_end) := by
  have ha : (sidx_to_seek_segments c5wBox 10 20)[0]? = some c7Seek0 := by
    simp [sidx_to_seek_segments, seekLoop_cons, c5wBox, c7Seek0]
  have hb : (parse_dash_sidx c5wBox 10 20)[0]? = some c5Seg0 := by
    simp [parse_dash_sidx, dashLoop_cons, c5wBox, c5Seg0]
  exact ⟨⟨ha, hb⟩, seek_and_dash_segments_agree c5wBox 10 20 0 c7Seek0 c5Seg0 ha hb⟩

/-! ## C8: time lookup semantics -/

/-- End time of the traversal: the running time accumulator after folding
all references (the start-plus-duration of the last emitted segment). -/
def loopEnd (ts : ℚ) (refs : List SidxReference) (t : ℚ) : ℚ :=
  match refs with
  | [] => t
  | r :: rs => loopEnd ts rs (t + (r.subsegment_duration : ℚ) / ts)

theorem loopEnd_ge (ts : ℚ) (hts : 0 ≤ ts) (refs : List SidxReference) (t : ℚ) :
    t ≤ loopEnd ts refs t := by
  induction refs generalizing t with
  | nil => exact le_refl t
  | cons r rs ih =>
    have hd : 0 ≤ (r.subsegment_duration : ℚ) / ts :=
      div_nonneg (Nat.cast_nonneg _) hts
    calc t ≤ t + (r.subsegment_duration : ℚ) / ts := by linarith
    _ ≤ loopEnd ts (r :: rs) t := by
      rw [loopEnd]
      exact ih _

theorem dashLoop_start_lower (ts : ℚ) (hts : 0 ≤ ts) (refs : List SidxReference)
    (t : ℚ) (o : Nat) :
    ∀ s ∈ dashLoop ts refs t o,
      t ≤ s.start_time_seconds ∧ 0 ≤ s.duration_seconds := by
  induction refs generalizing t o with
  | nil => simp [dashLoop]
  | cons r rs ih =>
    intro s hs
    have hd : 0 ≤ (r.subsegment_duration : ℚ) / ts :=
      div_nonneg (Nat.cast_nonneg _) hts
    rw [dashLoop_cons] at hs
    rcases List.mem_cons.mp hs with rfl | hmem
    · exact ⟨le_refl t, hd⟩
    · have h := ih _ _ s hmem
      constructor
      · linarith [h.1]
      · exact h.2

theorem dashLoop_end_le (ts : ℚ) (hts : 0 ≤ ts) (refs : List SidxReference)
    (t : ℚ) (o : Nat) :
    ∀ s ∈ dashLoop ts refs t o,
      s.start_time_seconds + s.duration_seconds ≤ loopEnd ts refs t := by
  induction refs generalizing t o with
  | nil => simp [dashLoop]
  | cons r rs ih =>
    intro s hs
    rw [dashLoop_cons] at hs
    rcases List.mem_cons.mp hs with rfl | hmem
    · simp only
      rw [loopEnd]
      exact loopEnd_ge ts hts rs _
    · rw [loopEnd]
      exact ih _ _ s hmem

theorem dashLoop_getLast_end (ts : ℚ) (refs : List SidxReference) (t : ℚ)
    (o : Nat) (last : DashSegment)
    (hlast : (dashLoop ts refs t o).getLast? = some last) :
    last.start_time_seconds + last.duration_seconds = loopEnd ts refs t := by
  induction refs generalizing t o with
  | nil => simp [dashLoop] at hlast
  | cons r rs ih =>
    cases rs with
    | nil =>
      rw [dashLoop_cons] at hlast
      simp only [dashLoop, List.getLast?_singleton, Option.some.injEq] at hlast
      subst hlast
      simp only [loopEnd]
    | cons r2 rs2 =>
      rw [dashLoop_cons] at hlast
      rw [dashLoop_cons] at hlast
      rw [List.getLast?_cons_cons] at hlast
      rw [← dashLoop_cons] at hlast
      have h := ih _ _ hlast
      rw [loopEnd]
      exact h

def c8Box : SidxBox :=
  { version := 0, flags := 0, reference_id := 0, timescale := 1,
    earliest_presentation_time := 0, first_offset := 0,
    references :=
      [{ reference_type := 0, referenced_size := 100, subsegment_duration := 2,
         starts_with_sap := true, sap_type := 1, sap_delta_time := 0 },
       { reference_type := 0, referenced_size := 100, subsegment_duration := 2,
         starts_with_sap := true, sap_type := 1, sap_delta_time := 0 }] }

def c8Seg0 : DashSegment :=
  { start_time_seconds := 0, duration_seconds := 2, byte_range_start := 0,
    byte_range_end := 99, contains_sap := true, sap_type := 1 }

def c8Seg1 : DashSegment :=
  { start_time_seconds := 2, duration_seconds := 2, byte_range_start := 100,
    byte_range_end := 199, contains_sap := true, sap_type := 1 }

/-- C8: `find_segment_for_time` returns the first segment whose half-open
interval `[start, start + duration)` contains the queried time (first
conjunct, over arbitrary segment lists), returns none on a derived sequence
whenever the time is before the start of the first segment or at/after the
end of the last segment (second conjunct), and on two derived segments covering
`[0, 2)` and `[2, 4)` seconds the lookup of time 2 returns the second
segment while the lookup of time 4 returns none. -/
theorem find_segment_for_time_spec :
    (∀ (segs : List DashSegment) (t : ℚ) (i : Nat) (s : DashSegment),
        segs[i]? = some s →
        (s.start_time_seconds ≤ t ∧
          t < s.start_time_seconds + s.duration_seconds) →
        (∀ j b, j < i → segs[j]? = some b →
          ¬(b.start_time_seconds ≤ t ∧
            t < b.start_time_seconds + b.duration_seconds)) →
        find_segment_for_time segs t = some s) ∧
    (∀ (sidx : SidxBox) (off sz : Nat) (t : ℚ) (first last : DashSegment),
        (parse_dash_sidx sidx off sz).head? = some first →
        (parse_dash_sidx sidx off sz).getLast? = some last →
        (t < first.start_time_seconds ∨
          last.start_time_seconds + last.duration_seconds ≤ t) →
        find_segment_for_time (parse_dash_sidx sidx off sz) t = none) ∧
    find_segment_for_time (parse_dash_sidx c8Box 0 0) 2 = some c8Seg1 ∧
    find_segment_for_time (parse_dash_sidx c8Box 0 0) 4 = none := by
  have hfirstmatch : ∀ (segs : List DashSegment) (t : ℚ) (i : Nat)
      (s : DashSegment),
      segs[i]? = some s →
      (s.start_time_seconds ≤ t ∧
        t < s.start_time_seconds + s.duration_seconds) →
      (∀ j b, j < i → segs[j]? = some b →
        ¬(b.start_time_seconds ≤ t ∧
          t < b.start_time_seconds + b.duration_seconds)) →
      find_segment_for_time segs t = some s := by
    intro segs
    induction segs with
    | nil =>
      intro t i s hs _ _
      simp at hs
    | cons c cs ih =>
      intro t i s hs hcont hmin
      cases i with
      | zero =>
        rw [List.getElem?_cons_zero] at hs
        have hcs := Option.some.inj hs
        subst hcs
        simp only [find_segment_for_time, List.find?]
        have hpc : decide (c.start_time_seconds ≤ t ∧
            t < c.start_time_seconds + c.duration_seconds) = true :=
          decide_eq_true hcont
        rw [hpc]
      | succ n =>
        have hc0 : (c :: cs)[0]? = some c := List.getElem?_cons_zero
        have hc : ¬(c.start_time_seconds ≤ t ∧
            t < c.start_time_seconds + c.duration_seconds) :=
          hmin 0 c (Nat.succ_pos n) hc0
        rw [List.getElem?_cons_succ] at hs
        simp only [find_segment_for_time, List.find?]
        have hnc : decide (c.start_time_seconds ≤ t ∧
            t < c.start_time_seconds + c.duration_seconds) = false :=
          decide_eq_false hc
        rw [hnc]
        exact ih t n s hs hcont fun j b hj hb =>
          hmin (j + 1) b (by omega) (by rw [List.getElem?_cons_succ]; exact hb)
  have hnone : ∀ (sidx : SidxBox) (off sz : Nat) (t : ℚ)
      (first last : DashSegment),
      (parse_dash_sidx sidx off sz).head? = some first →
      (parse_dash_sidx sidx off sz).getLast? = some last →
      (t < first.start_time_seconds ∨
        last.start_time_seconds + last.duration_seconds ≤ t) →
      find_segment_for_time (parse_dash_sidx sidx off sz) t = none := by
    intro sidx off sz t first last hfirst hlast hor
    have hts : (0 : ℚ) ≤ (sidx.timescale : ℚ) := Nat.cast_nonneg _
    unfold find_segment_for_time
    rw [List.find?_eq_none]
    intro x hx
    simp only [decide_eq_true_eq]
    simp only [parse_dash_sidx] at hx hfirst hlast
    rcases hor with h | h
    · cases hrefs : sidx.references with
      | nil =>
        rw [hrefs] at hx
        simp [dashLoop] at hx
      | cons r rs =>
        rw [hrefs] at hx hfirst
        rw [dashLoop_cons] at hfirst
        rw [List.head?_cons] at hfirst
        have hfe := Option.some.inj hfirst
        have hlow := (dashLoop_start_lower _ hts (r :: rs) _ _ x hx).1
        rw [← hfe] at h
        simp only at h
        intro hcontra
        have := hcontra.1
        linarith
    · have hend := dashLoop_end_le _ hts sidx.references _ _ x hx
      have hle := dashLoop_getLast_end _ sidx.references _ _ last hlast
      intro hcontra
      have := hcontra.2
      rw [hle] at h
      linarith
  refine ⟨hfirstmatch, hnone, ?_, ?_⟩
  · have h1 : (parse_dash_sidx c8Box 0 0)[1]? = some c8Seg1 := by
      simp [parse_dash_sidx, dashLoop_cons, c8Box, c8Seg1]
    have h0 : (parse_dash_sidx c8Box 0 0)[0]? = some c8Seg0 := by
      simp [parse_dash_sidx, dashLoop_cons, c8Box, c8Seg0]
    apply hfirstmatch _ 2 1 c8Seg1 h1 (by norm_num [c8Seg1])
    intro j b hj hb
    have hj0 : j = 0 := by omega
    subst hj0
    rw [h0] at hb
    have hbe := Option.some.inj hb
    subst hbe
    norm_num [c8Seg0]
  · apply hnone c8Box 0 0 4 c8Seg0 c8Seg1
    · simp [parse_dash_sidx, dashLoop_cons, c8Box, c8Seg0]
    · simp [parse_dash_sidx, dashLoop_cons, dashLoop, c8Box, c8Seg1,
        List.getLast?_cons_cons]
    · right
      norm_num [c8Seg1]

/-! ## C9: the third word when starts_with_sap is false -/

/-- A reference with the SAP flag clear whose `sap_delta_time` is a valid
`u32` but exceeds the 28-bit budget. -/
def c9Ref : SidxReference :=
  { reference_type := 0, referenced_size := 0, subsegment_duration := 0,
    starts_with_sap := false, sap_type := 0, sap_delta_time := 2 ^ 28 }

/-- C9 (counterexample): for `c9Ref` (flag clear, `sap_delta_time = 2^28`)
the third word written is indeed exactly `sap_delta_time`, but its SAP-type
bits are NOT all zero: bit 28 of the oversized delta lands in the SAP-type
field.  The claimed "with the SAP flag and SAP type bits all zero" fails
without a 28-bit bound on `sap_delta_time`. -/
theorem sap_bits_false_counterexample :
    sap_bits c9Ref = c9Ref.sap_delta_time ∧
    ¬((sap_bits c9Ref >>> 28) &&& 0x07 = 0) := by decide

/-- C9 (amended): when `starts_with_sap` is false the third word written is
exactly `sap_delta_time`, independent of `sap_type` (replacing `sap_type` by
any value leaves the word unchanged), and — provided `sap_delta_time` fits
its 28-bit budget — the SAP flag bit and the SAP type bits of that word are
all zero. -/
theorem sap_bits_false_amended (r : SidxReference) (n : Nat)
    (h : r.starts_with_sap = false) :
    sap_bits r = r.sap_delta_time ∧
    sap_bits { r with sap_type := n } = r.sap_delta_time ∧
    (r.sap_delta_time < 2 ^ 28 →
      (sap_bits r >>> 31) &&& 0x01 = 0 ∧ (sap_bits r >>> 28) &&& 0x07 = 0) := by
  obtain ⟨rt, size, dur, sap, st, delta⟩ := r
  simp only at h
  subst h
  refine ⟨rfl, rfl, ?_⟩
  intro hd
  simp only at hd
  exact ⟨extract_flag_false delta hd, extract_saptype_false delta hd⟩

def c9wRef : SidxReference :=
  { reference_type := 0, referenced_size := 3, subsegment_duration := 4,
    starts_with_sap := false, sap_type := 0, sap_delta_time := 77 }

/-- C9 (witness): the amended statement at the concrete reference `c9wRef`
and the replacement `sap_type = 5`. -/
theorem sap_bits_false_amended_witness :
    c9wRef.starts_with_sap = false ∧
    (sap_bits c9wRef = c9wRef.sap_delta_time ∧
      sap_bits { c9wRef with sap_type := 5 } = c9wRef.sap_delta_time ∧
      (c9wRef.sap_delta_time < 2 ^ 28 →
        (sap_bits c9wRef >>> 31) &&& 0x01 = 0 ∧
          (sap_bits c9wRef >>> 28) &&& 0x07 = 0)) :=
  ⟨by decide, sap_bits_false_amended c9wRef 5 (by decide)⟩

/-! ## C10: byte-range validity of parse_dash_sidx -/

def c10Box : SidxBox :=
  { version := 0, flags := 0, reference_id := 0, timescale := 1,
    earliest_presentation_time := 0, first_offset := 0,
    references := [{ reference_type := 0, referenced_size := 2,
                     subsegment_duration := 1, starts_with_sap := false,
                     sap_type := 0, sap_delta_time := 0 }] }

def c10Seg : DashSegment :=
  { start_time_seconds := 0, duration_seconds := 1,
    byte_range_start := 2 ^ 64 - 1, byte_range_end := 0,
    contains_sap := false, sap_type := 0 }

/-- C10 (counterexample): `c10Box` has every `referenced_size ≥ 1` — the
exact precondition the claim states — yet at box offset `2^64 - 1` the u64
computation `current_offset + referenced_size - 1` wraps past `2^64` and the
emitted segment has `byte_range_start = 2^64 - 1 > 0 = byte_range_end`.
The claimed precondition rules out the underflow but not the overflow. -/
theorem parse_dash_sidx_wrap_counterexample :
    (∀ r ∈ c10Box.references, 1 ≤ r.referenced_size) ∧
    parse_dash_sidx c10Box (2 ^ 64 - 1) 0 = [c10Seg] ∧
    ¬(c10Seg.byte_range_start ≤ c10Seg.byte_range_end) := by
  refine ⟨by decide, ?_, by decide⟩
  simp [parse_dash_sidx, dashLoop_cons, dashLoop, c10Box, c10Seg]

theorem dashLoop_ranges (ts : ℚ) (refs : List SidxReference) (t : ℚ) (o : Nat)
    (h1 : ∀ r ∈ refs, 1 ≤ r.referenced_size)
    (h2 : o + (refs.map fun r => r.referenced_size).sum ≤ 2 ^ 64) :
    ∀ seg ∈ dashLoop ts refs t o,
      seg.byte_range_start ≤ seg.byte_range_end := by
  induction refs generalizing t o with
  | nil => simp [dashLoop]
  | cons r rs ih =>
    have hr : 1 ≤ r.referenced_size := h1 r (List.mem_cons_self r rs)
    have hsum : o + r.referenced_size +
        (rs.map fun x => x.referenced_size).sum ≤ 2 ^ 64 := by
      have h3 := h2
      simp only [List.map_cons, List.sum_cons] at h3
      omega
    intro seg hseg
    rw [dashLoop_cons] at hseg
    rcases List.mem_cons.mp hseg with rfl | hmem
    · simp only
      omega
    · refine ih _ _ (fun x hx => h1 x (List.mem_cons_of_mem r hx)) ?_ seg hmem
      have hmod : (o + r.referenced_size) % 2 ^ 64 ≤ o + r.referenced_size :=
        Nat.mod_le _ _
      omega

/-- C10 (amended): provided every `referenced_size ≥ 1` AND the whole byte
span fits the u64 range (`sidx_box_offset + sidx_box_size + first_offset`
plus the sum of all referenced sizes is at most `2^64`), the unguarded
`current_offset + referenced_size - 1` in `parse_dash_sidx` never wraps and
every emitted `DashSegment` satisfies
`byte_range_start ≤ byte_range_end`. -/
theorem parse_dash_sidx_ranges_amended (s : SidxBox) (off sz : Nat)
    (h1 : ∀ r ∈ s.references, 1 ≤ r.referenced_size)
    (h2 : off + sz + s.first_offset +
      (s.references.map fun r => r.referenced_size).sum ≤ 2 ^ 64) :
    ∀ seg ∈ parse_dash_sidx s off sz,
      seg.byte_range_start ≤ seg.byte_range_end := by
  apply dashLoop_ranges _ _ _ _ h1
  have hmod : (off + sz + s.first_offset) % 2 ^ 64 ≤ off + sz + s.first_offset :=
    Nat.mod_le _ _
  omega

/-- C10 (witness): the amended statement at the concrete box `c10Box` placed
at offset 100 with box size 50: the single derived segment is
`[150, 151]`. -/
theorem parse_dash_sidx_ranges_amended_witness :
    ((∀ r ∈ c10Box.references, 1 ≤ r.referenced_size) ∧
      100 + 50 + c10Box.first_offset +
        (c10Box.references.map fun r => r.referenced_size).sum ≤ 2 ^ 64) ∧
    ∀ seg ∈ parse_dash_sidx c10Box 100 50,
      seg.byte_range_start ≤ seg.byte_range_end :=
  ⟨⟨by decide, by decide⟩,
    parse_dash_sidx_ranges_amended c10Box 100 50 (by decide) (by decide)⟩
